import Mathlib

/-
Verification of the template-expansion engine of this repository.

The engine's authoritative implementation is the final rewrite
(src/unnamed/part_002, "Fixed templating system that properly handles nested
ts-repeat"); the same helper functions appear verbatim in src/ts-library.js
and src/test.js.  We shallowly embed:

  * getNestedValue(obj, path)        (part_002 lines 9-19)
  * processTemplate(template, data)  (part_002 lines 21-28)
  * processRepeats(container, data)  (part_002 lines 30-89)
  * processSimplePlaceholders(html, data) (part_002 lines 91-101)

Modelling decisions (each noted again at the definition it concerns):
  * JS strings are `List Char`; `undefined` is `Option.none` (JSON-decoded
    data never contains `undefined`).
  * HTML parsing is not modelled: the engine receives the parsed node tree
    (the children of the temporary div) and the "input markup string" is the
    serialization of that tree.  DOM innerHTML normalization/entity escaping
    is outside the model.
  * Array property lookup models the index keys of a JS array (canonical
    decimal strings below the length); the `length` property and prototype
    properties are not modelled.
  * `String.prototype.replace` with a string pattern replaces the first
    occurrence literally; `$`-escape sequences in the replacement are not
    modelled (no claim involves them).
  * `console.warn` diagnostics are modelled as a list of the offending
    directive paths, threaded through the expansion.
-/

/-- A JSON-like data value, as the engine requires its `data` argument
(spec section 6: null / scalar / array / object, already decoded). -/
inductive JsValue where
  | vNull
  | vBool (b : Bool)
  | vNum (n : Int)
  | vStr (s : List Char)
  | vArr (xs : List JsValue)
  | vObj (fields : List (List Char × JsValue))

/-- Convert a Lean string literal to the character-list representation used
throughout the model. -/
def lc (s : String) : List Char := s.data

/-- Is the character one of the two brace delimiters used by the placeholder
pattern /{{([^{}]+)}}/ ? -/
def isBrace (c : Char) : Bool := c == '\x7b' || c == '\x7d'

/-- All characters of the list are non-brace characters. -/
def braceFreeL (l : List Char) : Bool := l.all (fun c => !(isBrace c))

/-- Model of JavaScript String.prototype.trim as used on placeholder keys
(part_002 line 95).  The JS whitespace class is modelled by
Char.isWhitespace. -/
def trimChars (l : List Char) : List Char :=
  ((l.dropWhile Char.isWhitespace).reverse.dropWhile Char.isWhitespace).reverse

/-- Model of JavaScript path.split('.') (part_002 line 10): splitting "" gives
[""], a leading/trailing/double dot gives empty segments. -/
def splitOnDot : List Char → List (List Char)
  | [] => [[]]
  | c :: cs =>
    if c = '.' then [] :: splitOnDot cs
    else
      match splitOnDot cs with
      | [] => [[c]]
      | s :: rest => (c :: s) :: rest

/-- The list contains no dot character. -/
def dotFree (l : List Char) : Bool := l.all (fun c => !(c == '.'))

/-- Numeric value of a list of decimal digit characters. -/
def digitsVal (l : List Char) : Nat :=
  l.foldl (fun acc c => acc * 10 + (c.toNat - '0'.toNat)) 0

/-- Does the segment denote an index key of a JS array, i.e. is it a
canonical decimal numeral (no leading zero except "0" itself)?  `"0" in [x]`
is true in JS while `"00" in [x]` is false.  Indices at or above 2^32-1 are
not distinguished (no claim involves them). -/
def canonIndex? : List Char → Option Nat
  | [] => none
  | c :: cs =>
    if (c :: cs).all Char.isDigit && (!(c == '0') || cs.isEmpty)
    then some (digitsVal (c :: cs))
    else none

/-- First-match lookup in an association list with `List Char` keys; models
JS property access on objects with unique keys (and attribute lookup on DOM
elements). -/
def lookupBy {α : Type} : List (List Char × α) → List Char → Option α
  | [], _ => none
  | (n, v) :: rest, key => if n = key then some v else lookupBy rest key

/-- One step of getNestedValue's walk (part_002 lines 12-16): JS
`current === null || typeof current !== 'object' || !(part in current)`
returns undefined; otherwise `current[part]`.  Objects and arrays are the
only 'object'-typed values; array membership is index-key membership. -/
def getProp : JsValue → List Char → Option JsValue
  | .vObj fields, p => lookupBy fields p
  | .vArr xs, p =>
    match canonIndex? p with
    | some i => xs.get? i
    | none => none
  | _, _ => none

/-- The segment-by-segment walk of getNestedValue (part_002 lines 11-18). -/
def walkPath : JsValue → List (List Char) → Option JsValue
  | cur, [] => some cur
  | cur, p :: ps =>
    match getProp cur p with
    | none => none
    | some v => walkPath v ps

/-- getNestedValue(obj, path) of part_002 lines 9-19 (identical in test.js
and ts-library.js): split the path on '.', walk the segments, return
undefined (`none`) on the first failure. -/
def getNestedValue (obj : JsValue) (path : List Char) : Option JsValue :=
  walkPath obj (splitOnDot path)

mutual

/-- Structural size of a data value, used as recursion fuel where a function
must descend through array elements. -/
def jsSize : JsValue → Nat
  | .vNull => 1
  | .vBool _ => 1
  | .vNum _ => 1
  | .vStr _ => 1
  | .vArr xs => 1 + jsSizeList xs
  | .vObj fs => 1 + jsSizeFields fs

def jsSizeList : List JsValue → Nat
  | [] => 0
  | x :: xs => jsSize x + jsSizeList xs

def jsSizeFields : List (List Char × JsValue) → Nat
  | [] => 0
  | kv :: rest => jsSize kv.2 + jsSizeFields rest

end

/-- JavaScript String(value) for the values substituted at part_002 line 97,
with fuel for the recursion through array elements (Array.prototype.join
stringifies elements, rendering null as "").  The fuel only matters for
nested arrays; the callers pass a sufficient bound. -/
def jsToStrF : JsValue → Nat → List Char
  | .vNull, _ => lc "null"
  | .vBool b, _ => if b then lc "true" else lc "false"
  | .vNum n, _ => (toString n).data
  | .vStr s, _ => s
  | .vObj _, _ => lc "[object Object]"
  | .vArr _, 0 => []
  | .vArr xs, f + 1 =>
    joinComma (xs.map (fun x =>
      match x with
      | .vNull => []
      | y => jsToStrF y f))
where
  joinComma : List (List Char) → List Char
    | [] => []
    | [x] => x
    | x :: xs => x ++ ',' :: joinComma xs

/-- JavaScript String(value): scalars in their natural decimal/lowercase
form, arrays comma-joined, objects as "[object Object]". -/
def jsToString (v : JsValue) : List Char := jsToStrF v (jsSize v)

/-- Every string scalar reachable inside the value is free of brace
characters (fuelled like jsToStrF; the callers pass a sufficient bound). -/
def braceFreeScalarsF : JsValue → Nat → Bool
  | .vStr s, _ => braceFreeL s
  | .vArr _, 0 => true
  | .vArr xs, f + 1 => xs.all (fun x => braceFreeScalarsF x f)
  | .vObj _, 0 => true
  | .vObj fs, f + 1 => fs.all (fun kv => braceFreeScalarsF kv.2 f)
  | _, _ => true

/-- Every string scalar inside the value is free of brace characters
(the condition of the spec's idempotence property). -/
def braceFreeScalars (v : JsValue) : Bool := braceFreeScalarsF v (jsSize v)

/-- Longest brace-free initial segment and the remainder; models the greedy
[^{}]+ part of the placeholder regex. -/
def spanNonBrace : List Char → List Char × List Char
  | [] => ([], [])
  | c :: cs =>
    if isBrace c then ([], c :: cs)
    else
      let pr := spanNonBrace cs
      (c :: pr.1, pr.2)

/-- Attempt to match the placeholder pattern /{{([^{}]+)}}/ at the start of
the list; on success return the captured interior and the remainder after
the closing braces. -/
def tryTok : List Char → Option (List Char × List Char)
  | c1 :: c2 :: cs =>
    if c1 = '\x7b' ∧ c2 = '\x7b' then
      let pr := spanNonBrace cs
      if pr.1 = [] then none
      else
        match pr.2 with
        | d1 :: d2 :: rest =>
          if d1 = '\x7d' ∧ d2 = '\x7d' then some (pr.1, rest) else none
        | _ => none
    else none
  | _ => none

/-- Fuelled scanner for all non-overlapping leftmost matches of the
placeholder pattern, as html.match(/{{([^{}]+)}}/g) produces them
(part_002 line 92); returns the interiors in order of occurrence. -/
def scanAux : Nat → List Char → List (List Char)
  | 0, _ => []
  | _ + 1, [] => []
  | fuel + 1, c :: cs =>
    match tryTok (c :: cs) with
    | some (p, rest) => p :: scanAux fuel rest
    | none => scanAux fuel cs

/-- All placeholder interiors found in the markup, in order of occurrence;
the fuel `l.length` always suffices because each step consumes at least one
character. -/
def scanTokens (l : List Char) : List (List Char) := scanAux l.length l

/-- The full placeholder token for an interior: the string the regex matched
and `html.replace` receives. -/
def mkTok (p : List Char) : List Char := '\x7b' :: '\x7b' :: (p ++ '\x7d' :: '\x7d' :: [])

/-- Boolean list-prefix test used by replaceFirst. -/
def isPfx : List Char → List Char → Bool
  | [], _ => true
  | _ :: _, [] => false
  | a :: as, b :: bs => a == b && isPfx as bs

/-- Model of JavaScript html.replace(pattern, replacement) with a string
pattern (part_002 line 97): replace the first occurrence of `pat`
literally, leave the string unchanged when `pat` does not occur. -/
def replaceFirst (h pat rep : List Char) : List Char :=
  match h with
  | [] => []
  | c :: cs =>
    if isPfx pat (c :: cs) then rep ++ (c :: cs).drop pat.length
    else c :: replaceFirst cs pat rep

/-- One iteration of the placeholders.forEach body of part_002 lines 94-98:
trim the interior, resolve it against the scope, and replace the first
occurrence of the (untrimmed) token with String(value), or with the empty
string when resolution returned undefined. -/
def substOne (data : JsValue) (h : List Char) (p : List Char) : List Char :=
  match getNestedValue data (trimChars p) with
  | some v => replaceFirst h (mkTok p) (jsToString v)
  | none => replaceFirst h (mkTok p) []

/-- processSimplePlaceholders(html, data) of part_002 lines 91-101: collect
the token list from the original html once, then fold the replacement over
it. -/
def processSimplePlaceholders (html : List Char) (data : JsValue) : List Char :=
  (scanTokens html).foldl (substOne data) html

/-- A node of the parsed markup tree: text content, or an element with a
tag, an ordered attribute list and children.  Void elements, comments and
entity escaping are not modelled. -/
inductive MNode where
  | text (s : List Char)
  | elem (tag : List Char) (attrs : List (List Char × List Char)) (children : List MNode)

/-- The repeat-directive attribute name. -/
def tsRepeatN : List Char := lc "ts-repeat"

/-- Serialization of an attribute list as the DOM emits it inside outerHTML:
a space, the name, '="', the value, '"'. -/
def serializeAttrs : List (List Char × List Char) → List Char
  | [] => []
  | (n, v) :: rest => ' ' :: (n ++ '=' :: '"' :: (v ++ '"' :: serializeAttrs rest))

mutual

/-- outerHTML of a node: text verbatim, elements as an open tag, the
serialized children, and a close tag. -/
def serializeNode : MNode → List Char
  | .text s => s
  | .elem tag attrs cs =>
    '<' :: (tag ++ serializeAttrs attrs ++ '>' ::
      (serializeNodes cs ++ '<' :: '/' :: (tag ++ ['>'])))

/-- innerHTML of a node sequence: concatenation of the members'
serializations. -/
def serializeNodes : List MNode → List Char
  | [] => []
  | n :: ns => serializeNode n ++ serializeNodes ns

end

/-- Model of the itemTemplate regex of part_002 line 72,
outerHTML.replace(/\s*ts-repeat="[^"]*"/g, ''): the global flag removes
EVERY ts-repeat attribute occurring in the serialized subtree, i.e. the
attribute entry named ts-repeat of every element; attribute values
containing quotes and text nodes containing the literal pattern are outside
the model. -/
def removeRepeatAttr : List (List Char × List Char) → List (List Char × List Char)
  | [] => []
  | a :: rest => if a.1 = tsRepeatN then removeRepeatAttr rest else a :: removeRepeatAttr rest

mutual

/-- The tree whose serialization is part_002 line 72's itemTemplate: the
subtree with the ts-repeat attribute of every element removed. -/
def stripAll : MNode → MNode
  | .text s => .text s
  | .elem tag attrs cs => .elem tag (removeRepeatAttr attrs) (stripAllList cs)

def stripAllList : List MNode → List MNode
  | [] => []
  | n :: ns => stripAll n :: stripAllList ns

end

mutual

/-- No element of the subtree carries a ts-repeat attribute (the TreeWalker
of part_002 lines 33-52 would accept no node in it). -/
def noDirective : MNode → Bool
  | .text _ => true
  | .elem _ attrs cs => (lookupBy attrs tsRepeatN).isNone && noDirectiveList cs

def noDirectiveList : List MNode → Bool
  | [] => true
  | n :: ns => noDirective n && noDirectiveList ns

end

/-- An optional value that resolved to an array (the Array.isArray test of
part_002 line 66 on a getNestedValue result). -/
def isArrayOpt : Option JsValue → Bool
  | some (.vArr _) => true
  | _ => false

/-- Concatenate per-item (html, warnings) pairs: the htmls as
collection.map(...).join('') does at part_002 line 85, the warnings in the
same chronological order. -/
def joinPairs : List (List Char × List (List Char)) → List Char × List (List Char)
  | [] => ([], [])
  | x :: xs => (x.1 ++ (joinPairs xs).1, x.2 ++ (joinPairs xs).2)

/-- Size bound for removeRepeatAttr, needed by the termination argument of
processRepeatNode. -/
def removeRepeatAttrSizeLe : (l : List (List Char × List Char)) →
    sizeOf (removeRepeatAttr l) ≤ sizeOf l
  | [] => by simp [removeRepeatAttr]
  | a :: rest => by
    have ih := removeRepeatAttrSizeLe rest
    simp only [removeRepeatAttr]
    split
    · simp
      omega
    · simp
      omega

/-- Strict size decrease of removeRepeatAttr when a ts-repeat entry is
present, needed by the termination argument of processRepeatNode. -/
def removeRepeatAttrSizeLt : (l : List (List Char × List Char)) → (v : List Char) →
    lookupBy l tsRepeatN = some v → sizeOf (removeRepeatAttr l) < sizeOf l
  | [], v, h => by simp [lookupBy] at h
  | a :: rest, v, h => by
    simp only [lookupBy] at h
    simp only [removeRepeatAttr]
    by_cases hk : a.1 = tsRepeatN
    · have h1 := removeRepeatAttrSizeLe rest
      have ha : (1 : Nat) ≤ sizeOf a := by cases a; simp; omega
      simp only [if_pos hk]
      simp
      omega
    · have h2 := removeRepeatAttrSizeLt rest v (by simpa [hk] using h)
      simp only [if_neg hk]
      simp
      omega

mutual

/-- Size bound for stripAll, needed by the termination argument of
processRepeatNode. -/
def stripAllSizeLe : (n : MNode) → sizeOf (stripAll n) ≤ sizeOf n
  | .text s => by simp [stripAll]
  | .elem tag attrs cs => by
    have h1 := removeRepeatAttrSizeLe attrs
    have h2 := stripAllListSizeLe cs
    simp only [stripAll]
    simp
    omega

def stripAllListSizeLe : (l : List MNode) → sizeOf (stripAllList l) ≤ sizeOf l
  | [] => by simp [stripAllList]
  | n :: ns => by
    have h1 := stripAllSizeLe n
    have h2 := stripAllListSizeLe ns
    simp only [stripAllList]
    simp
    omega

end

/-- Strict size decrease of stripAll on a directive element, the measure
fact behind the recursion of processRepeatNode. -/
def stripAllElemSizeLt (tag : List Char) (attrs : List (List Char × List Char))
    (cs : List MNode) (v : List Char) (h : lookupBy attrs tsRepeatN = some v) :
    sizeOf (stripAll (MNode.elem tag attrs cs)) < sizeOf (MNode.elem tag attrs cs) := by
  have h1 := removeRepeatAttrSizeLt attrs v h
  have h2 := stripAllListSizeLe cs
  simp only [stripAll]
  simp
  omega

mutual

/-- processRepeats of part_002 lines 30-89, per node.  A text node passes
through.  A non-directive element is serialized around the processing of its
children (the TreeWalker descends past it looking for top-level directives;
the element itself is only serialized at the end of processTemplate).  A
directive element resolves its collection against the current scope
(line 64); a non-array collection removes the element and warns
(lines 66-70); an array collection produces, in order, one copy per item
(lines 74-85): the copy's template is the subtree with every ts-repeat
attribute stripped (line 72), processRepeats recurses on that copy with the
item as scope (line 79), then processSimplePlaceholders runs on the
result with the item as scope (line 82); the copies replace the directive
element (line 87). -/
def processRepeatNode : MNode → JsValue → List Char × List (List Char)
  | .text s, _ => (s, [])
  | .elem tag attrs cs, data =>
    match hdir : lookupBy attrs tsRepeatN with
    | some arrayPath =>
      (match getNestedValue data arrayPath with
       | some (.vArr items) =>
         joinPairs (items.map (fun item =>
           let pr := processRepeatNode (stripAll (.elem tag attrs cs)) item
           (processSimplePlaceholders pr.1 item, pr.2)))
       | _ => ([], [arrayPath]))
    | none =>
      let pr := processRepeats cs data
      ('<' :: (tag ++ serializeAttrs attrs ++ '>' ::
        (pr.1 ++ '<' :: '/' :: (tag ++ ['>']))), pr.2)
termination_by n _ => sizeOf n
decreasing_by
  all_goals first
    | exact stripAllElemSizeLt tag attrs cs arrayPath hdir
    | (simp; try omega)

/-- processRepeats over a node sequence (the children of the container):
outputs and warnings concatenate in document order. -/
def processRepeats : List MNode → JsValue → List Char × List (List Char)
  | [], _ => ([], [])
  | n :: ns, data =>
    let p1 := processRepeatNode n data
    let p2 := processRepeats ns data
    (p1.1 ++ p2.1, p1.2 ++ p2.2)
termination_by l _ => sizeOf l
decreasing_by
  all_goals (simp; try omega)

end

/-- processTemplate(template, data) of part_002 lines 21-28: run
processRepeats over the parsed tree with the root data as scope, then run
processSimplePlaceholders over the serialized result with the root data as
scope.  The input markup string is the serialization of `nodes` (HTML
parsing is not modelled). -/
def processTemplate (nodes : List MNode) (data : JsValue) :
    List Char × List (List Char) :=
  let pr := processRepeats nodes data
  (processSimplePlaceholders pr.1 data, pr.2)

theorem isBrace_eq_false {c : Char} : isBrace c = false ↔ (c ≠ '\x7b' ∧ c ≠ '\x7d') := by
  simp [isBrace]

theorem braceFreeL_cons {c : Char} {l : List Char} :
    braceFreeL (c :: l) = true ↔ (isBrace c = false ∧ braceFreeL l = true) := by
  simp [braceFreeL]

theorem braceFreeL_append {a b : List Char} :
    braceFreeL (a ++ b) = true ↔ (braceFreeL a = true ∧ braceFreeL b = true) := by
  simp [braceFreeL]

theorem spanNonBrace_bf_append {p : List Char} (c : Char) (r : List Char)
    (hp : braceFreeL p = true) (hc : isBrace c = true) :
    spanNonBrace (p ++ c :: r) = (p, c :: r) := by
  induction p with
  | nil => simp [spanNonBrace, hc]
  | cons x xs ih =>
    rcases braceFreeL_cons.mp hp with ⟨hx, hxs⟩
    simp [spanNonBrace, hx, ih hxs]

theorem spanNonBrace_split : ∀ {l p r : List Char},
    spanNonBrace l = (p, r) → l = p ++ r ∧ braceFreeL p = true
  | [], p, r, h => by
    simp only [spanNonBrace, Prod.mk.injEq] at h
    rcases h with ⟨h1, h2⟩
    subst h1
    subst h2
    simp [braceFreeL]
  | c :: cs, p, r, h => by
    by_cases hc : isBrace c = true
    · simp only [spanNonBrace, hc, if_true, Prod.mk.injEq] at h
      rcases h with ⟨h1, h2⟩
      subst h1
      subst h2
      simp [braceFreeL]
    · rcases hsp : spanNonBrace cs with ⟨p1, r1⟩
      simp only [spanNonBrace, hc, if_false, hsp, Bool.false_eq_true, Prod.mk.injEq] at h
      rcases h with ⟨h1, h2⟩
      subst h1
      subst h2
      rcases spanNonBrace_split hsp with ⟨hcs, hbf⟩
      constructor
      · simp [hcs]
      · exact braceFreeL_cons.mpr ⟨by simpa using hc, hbf⟩

theorem tryTok_mkTok {p : List Char} (b : List Char)
    (hne : p ≠ []) (hbf : braceFreeL p = true) :
    tryTok (mkTok p ++ b) = some (p, b) := by
  have hspan : spanNonBrace (p ++ '\x7d' :: ('\x7d' :: b)) = (p, '\x7d' :: '\x7d' :: b) :=
    spanNonBrace_bf_append '\x7d' ('\x7d' :: b) hbf (by decide)
  simp only [mkTok, List.cons_append, List.append_assoc, List.cons_append, List.nil_append]
  simp [tryTok, hspan, hne]

theorem tryTok_split : ∀ {l p rest : List Char}, tryTok l = some (p, rest) →
    l = mkTok p ++ rest ∧ p ≠ [] ∧ braceFreeL p = true := by
  intro l p rest h
  match l with
  | [] => simp [tryTok] at h
  | [c1] => simp [tryTok] at h
  | c1 :: c2 :: cs =>
    by_cases hc : c1 = '\x7b' ∧ c2 = '\x7b'
    · rcases hsp : spanNonBrace cs with ⟨p1, r1⟩
      rcases spanNonBrace_split hsp with ⟨hcs, hbf⟩
      by_cases hp1 : p1 = []
      · simp [tryTok, hc, hsp, hp1] at h
      · rcases r1 with _ | ⟨d1, r1t⟩
        · simp [tryTok, hc, hsp, hp1] at h
        · rcases r1t with _ | ⟨d2, r2⟩
          · simp [tryTok, hc, hsp, hp1] at h
          · by_cases hd : d1 = '\x7d' ∧ d2 = '\x7d'
            · simp only [tryTok, hc, and_self, if_true, hsp, hp1, if_false, hd,
                Option.some.injEq, Prod.mk.injEq] at h
              rcases h with ⟨h1, h2⟩
              subst h1
              subst h2
              refine ⟨?_, hp1, hbf⟩
              rw [hc.1, hc.2, hcs, hd.1, hd.2]
              simp [mkTok]
            · simp [tryTok, hc, hsp, hp1, hd] at h
    · simp [tryTok, hc] at h

theorem tryTok_none_of_not_open {c : Char} (cs : List Char) (hc : c ≠ '\x7b') :
    tryTok (c :: cs) = none := by
  match cs with
  | [] => simp [tryTok]
  | c2 :: cs2 => simp [tryTok, hc]

theorem scanAux_agree : ∀ (f1 f2 : Nat) (l : List Char),
    l.length ≤ f1 → l.length ≤ f2 → scanAux f1 l = scanAux f2 l
  | 0, f2, l, h1, _ => by
    have : l = [] := List.eq_nil_of_length_eq_zero (Nat.le_zero.mp h1)
    subst this
    cases f2 <;> simp [scanAux]
  | f1 + 1, 0, l, _, h2 => by
    have : l = [] := List.eq_nil_of_length_eq_zero (Nat.le_zero.mp h2)
    subst this
    simp [scanAux]
  | f1 + 1, f2 + 1, [], _, _ => by simp [scanAux]
  | f1 + 1, f2 + 1, c :: cs, h1, h2 => by
    rcases htt : tryTok (c :: cs) with _ | ⟨p, rest⟩
    · simp only [scanAux, htt]
      exact scanAux_agree f1 f2 cs (by simp at h1; omega) (by simp at h2; omega)
    · rcases tryTok_split htt with ⟨hl, hp, _⟩
      have hple : 0 < p.length := List.length_pos.mpr hp
      have hlen : cs.length + 1 = p.length + 4 + rest.length := by
        have h3 := congrArg List.length hl
        simp [mkTok] at h3
        omega
      have hr1 : rest.length ≤ f1 := by simp at h1; omega
      have hr2 : rest.length ≤ f2 := by simp at h2; omega
      simp only [scanAux, htt]
      rw [scanAux_agree f1 f2 rest hr1 hr2]

theorem scanTokens_nil : scanTokens [] = [] := rfl

theorem scanTokens_cons_some {c : Char} {cs p rest : List Char}
    (h : tryTok (c :: cs) = some (p, rest)) :
    scanTokens (c :: cs) = p :: scanTokens rest := by
  rcases tryTok_split h with ⟨hl, hp, _⟩
  have hple : 0 < p.length := List.length_pos.mpr hp
  have hlen : cs.length + 1 = p.length + 4 + rest.length := by
    have h3 := congrArg List.length hl
    simp [mkTok] at h3
    omega
  simp only [scanTokens, List.length_cons, scanAux, h]
  rw [scanAux_agree cs.length rest.length rest (by omega) (le_refl _)]

theorem scanTokens_cons_none {c : Char} {cs : List Char}
    (h : tryTok (c :: cs) = none) :
    scanTokens (c :: cs) = scanTokens cs := by
  simp only [scanTokens, List.length_cons, scanAux, h]

theorem scanTokens_append_bf : ∀ {a : List Char} (h : List Char),
    braceFreeL a = true → scanTokens (a ++ h) = scanTokens h
  | [], h, _ => by simp
  | c :: a2, h, hbf => by
    rcases braceFreeL_cons.mp hbf with ⟨hc, ha2⟩
    have hcne : c ≠ '\x7b' := (isBrace_eq_false.mp hc).1
    rw [List.cons_append, scanTokens_cons_none (tryTok_none_of_not_open (a2 ++ h) hcne)]
    exact scanTokens_append_bf h ha2

theorem scanTokens_of_bf {l : List Char} (hbf : braceFreeL l = true) :
    scanTokens l = [] := by
  have := scanTokens_append_bf (a := l) [] hbf
  simpa using this

theorem scanTokens_first_tok {a p : List Char} (b : List Char)
    (ha : braceFreeL a = true) (hp : p ≠ []) (hbf : braceFreeL p = true) :
    scanTokens (a ++ (mkTok p ++ b)) = p :: scanTokens b := by
  rw [scanTokens_append_bf (mkTok p ++ b) ha]
  have htt : tryTok (mkTok p ++ b) = some (p, b) := tryTok_mkTok b hp hbf
  have : mkTok p ++ b = '\x7b' :: ('\x7b' :: (p ++ '\x7d' :: '\x7d' :: []) ++ b) := by
    simp [mkTok]
  rw [this] at htt ⊢
  exact scanTokens_cons_some htt

theorem scanAux_mem : ∀ (f : Nat) (l p : List Char), p ∈ scanAux f l →
    p ≠ [] ∧ braceFreeL p = true
  | 0, l, p, h => by simp [scanAux] at h
  | f + 1, [], p, h => by simp [scanAux] at h
  | f + 1, c :: cs, p, h => by
    rcases htt : tryTok (c :: cs) with _ | ⟨q, rest⟩
    · rw [scanAux, htt] at h
      exact scanAux_mem f cs p h
    · rw [scanAux, htt] at h
      rcases List.mem_cons.mp h with h1 | h2
      · subst h1
        exact ⟨(tryTok_split htt).2.1, (tryTok_split htt).2.2⟩
      · exact scanAux_mem f rest p h2

theorem scanTokens_mem {l p : List Char} (h : p ∈ scanTokens l) :
    p ≠ [] ∧ braceFreeL p = true :=
  scanAux_mem l.length l p h

theorem isPfx_append_self : ∀ (t r : List Char), isPfx t (t ++ r) = true
  | [], _ => rfl
  | c :: ts, r => by simp [isPfx, isPfx_append_self ts r]

theorem replaceFirst_head (c : Char) (ts r rep : List Char) :
    replaceFirst ((c :: ts) ++ r) (c :: ts) rep = rep ++ r := by
  have h1 : isPfx (c :: ts) ((c :: ts) ++ r) = true := isPfx_append_self _ _
  simp only [List.cons_append] at h1 ⊢
  rw [replaceFirst, if_pos h1]
  congr 1
  have : (c :: (ts ++ r)).drop (c :: ts).length = ((c :: ts) ++ r).drop (c :: ts).length := by
    simp
  rw [this, List.drop_left]

theorem replaceFirst_append_bf : ∀ {a : List Char} (h t rep : List Char),
    braceFreeL a = true →
    replaceFirst (a ++ h) ('\x7b' :: t) rep = a ++ replaceFirst h ('\x7b' :: t) rep
  | [], h, t, rep, _ => by simp
  | c :: a2, h, t, rep, hbf => by
    rcases braceFreeL_cons.mp hbf with ⟨hc, ha2⟩
    have hcne : c ≠ '\x7b' := (isBrace_eq_false.mp hc).1
    have hpf : isPfx ('\x7b' :: t) (c :: (a2 ++ h)) = false := by
      simp [isPfx]
      intro he
      exact absurd he.symm hcne
    simp only [List.cons_append]
    rw [replaceFirst, if_neg (by simp [hpf])]
    rw [replaceFirst_append_bf h t rep ha2]

theorem substOne_append_bf {a : List Char} (h : List Char) (d : JsValue) (p : List Char)
    (hbf : braceFreeL a = true) :
    substOne d (a ++ h) p = a ++ substOne d h p := by
  unfold substOne
  rcases getNestedValue d (trimChars p) with _ | v
  · exact replaceFirst_append_bf h ('\x7b' :: (p ++ '\x7d' :: '\x7d' :: [])) [] hbf
  · exact replaceFirst_append_bf h ('\x7b' :: (p ++ '\x7d' :: '\x7d' :: [])) (jsToString v) hbf

theorem foldl_substOne_append_bf {a : List Char} (d : JsValue) :
    ∀ (toks : List (List Char)) (h : List Char), braceFreeL a = true →
    toks.foldl (substOne d) (a ++ h) = a ++ toks.foldl (substOne d) h
  | [], h, _ => by simp
  | p :: toks, h, hbf => by
    simp only [List.foldl_cons]
    rw [substOne_append_bf h d p hbf]
    exact foldl_substOne_append_bf d toks (substOne d h p) hbf

theorem psp_of_no_tokens {h : List Char} (d : JsValue) (hs : scanTokens h = []) :
    processSimplePlaceholders h d = h := by
  unfold processSimplePlaceholders
  rw [hs]
  rfl

theorem psp_append_bf {a : List Char} (h : List Char) (d : JsValue)
    (hbf : braceFreeL a = true) :
    processSimplePlaceholders (a ++ h) d = a ++ processSimplePlaceholders h d := by
  unfold processSimplePlaceholders
  rw [scanTokens_append_bf h hbf]
  exact foldl_substOne_append_bf d (scanTokens h) h hbf

theorem replaceFirst_mkTok {a : List Char} (p b rep : List Char)
    (ha : braceFreeL a = true) :
    replaceFirst (a ++ (mkTok p ++ b)) (mkTok p) rep = a ++ (rep ++ b) := by
  have hmk : mkTok p = ('\x7b' :: ('\x7b' :: (p ++ '\x7d' :: '\x7d' :: []))) := rfl
  rw [hmk]
  rw [replaceFirst_append_bf (('\x7b' :: ('\x7b' :: (p ++ '\x7d' :: '\x7d' :: []))) ++ b)
    ('\x7b' :: (p ++ '\x7d' :: '\x7d' :: [])) rep ha]
  rw [replaceFirst_head]

theorem psp_first_absent {a p : List Char} (b : List Char) (d : JsValue)
    (ha : braceFreeL a = true) (hp : p ≠ []) (hbf : braceFreeL p = true)
    (habs : getNestedValue d (trimChars p) = none) :
    processSimplePlaceholders (a ++ (mkTok p ++ b)) d =
      a ++ processSimplePlaceholders b d := by
  unfold processSimplePlaceholders
  rw [scanTokens_first_tok b ha hp hbf]
  simp only [List.foldl_cons]
  have hsub : substOne d (a ++ (mkTok p ++ b)) p = a ++ b := by
    unfold substOne
    rw [habs]
    exact replaceFirst_mkTok p b [] ha
  rw [hsub]
  exact foldl_substOne_append_bf d (scanTokens b) b ha

theorem prn_text (s : List Char) (d : JsValue) :
    processRepeatNode (.text s) d = (s, []) := by
  rw [processRepeatNode]

theorem processRepeats_nil (d : JsValue) : processRepeats [] d = ([], []) := by
  rw [processRepeats]

theorem processRepeats_cons (n : MNode) (ns : List MNode) (d : JsValue) :
    processRepeats (n :: ns) d =
      ((processRepeatNode n d).1 ++ (processRepeats ns d).1,
       (processRepeatNode n d).2 ++ (processRepeats ns d).2) := by
  rw [processRepeats]

theorem prn_elem_nodir (tag : List Char) (attrs : List (List Char × List Char))
    (cs : List MNode) (d : JsValue) (h : lookupBy attrs tsRepeatN = none) :
    processRepeatNode (.elem tag attrs cs) d =
      ('<' :: (tag ++ serializeAttrs attrs ++ '>' ::
        ((processRepeats cs d).1 ++ '<' :: '/' :: (tag ++ ['>']))),
       (processRepeats cs d).2) := by
  rw [processRepeatNode, h]

theorem prn_elem_dir_arr (tag : List Char) (attrs : List (List Char × List Char))
    (cs : List MNode) (d : JsValue) (path : List Char) (items : List JsValue)
    (h1 : lookupBy attrs tsRepeatN = some path)
    (h2 : getNestedValue d path = some (.vArr items)) :
    processRepeatNode (.elem tag attrs cs) d =
      joinPairs (items.map (fun item =>
        ((processSimplePlaceholders
            (processRepeatNode (stripAll (.elem tag attrs cs)) item).1 item),
         (processRepeatNode (stripAll (.elem tag attrs cs)) item).2))) := by
  simp only [processRepeatNode]
  split
  · rename_i arrayPath hsp
    rw [h1] at hsp
    injection hsp with he
    subst he
    rw [h2]
  · rename_i hsp
    rw [h1] at hsp
    exact absurd hsp (by simp)

theorem prn_elem_dir_bad (tag : List Char) (attrs : List (List Char × List Char))
    (cs : List MNode) (d : JsValue) (path : List Char)
    (h1 : lookupBy attrs tsRepeatN = some path)
    (h2 : isArrayOpt (getNestedValue d path) = false) :
    processRepeatNode (.elem tag attrs cs) d = ([], [path]) := by
  simp only [processRepeatNode]
  split
  · rename_i arrayPath hsp
    rw [h1] at hsp
    injection hsp with he
    subst he
    rcases hv : getNestedValue d path with _ | v
    · rfl
    · rw [hv] at h2
      cases v <;> simp_all [isArrayOpt]
  · rename_i hsp
    rw [h1] at hsp
    exact absurd hsp (by simp)

theorem processRepeats_append : ∀ (a b : List MNode) (d : JsValue),
    processRepeats (a ++ b) d =
      ((processRepeats a d).1 ++ (processRepeats b d).1,
       (processRepeats a d).2 ++ (processRepeats b d).2)
  | [], b, d => by simp [processRepeats_nil]
  | n :: ns, b, d => by
    rw [List.cons_append, processRepeats_cons, processRepeats_append ns b d,
      processRepeats_cons]
    simp

theorem lookupBy_removeRepeatAttr : ∀ (l : List (List Char × List Char)),
    lookupBy (removeRepeatAttr l) tsRepeatN = none
  | [] => rfl
  | a :: rest => by
    by_cases hk : a.1 = tsRepeatN
    · rw [removeRepeatAttr, if_pos hk]
      exact lookupBy_removeRepeatAttr rest
    · rw [removeRepeatAttr, if_neg hk]
      rcases a with ⟨n, v⟩
      rw [lookupBy, if_neg hk]
      exact lookupBy_removeRepeatAttr rest

mutual

theorem noDirective_stripAll : (n : MNode) → noDirective (stripAll n) = true
  | .text s => rfl
  | .elem tag attrs cs => by
    rw [stripAll, noDirective, lookupBy_removeRepeatAttr attrs]
    simp [noDirectiveList_stripAllList cs]

theorem noDirectiveList_stripAllList : (l : List MNode) → noDirectiveList (stripAllList l) = true
  | [] => rfl
  | n :: ns => by
    rw [stripAllList, noDirectiveList]
    simp [noDirective_stripAll n, noDirectiveList_stripAllList ns]

end

mutual

theorem prn_noDirective : (n : MNode) → (d : JsValue) → noDirective n = true →
    processRepeatNode n d = (serializeNode n, [])
  | .text s, d, _ => prn_text s d
  | .elem tag attrs cs, d, h => by
    rw [noDirective] at h
    simp only [Bool.and_eq_true, Option.isNone_iff_eq_none] at h
    rw [prn_elem_nodir tag attrs cs d h.1,
      processRepeats_noDirective cs d h.2, serializeNode]

theorem processRepeats_noDirective : (l : List MNode) → (d : JsValue) →
    noDirectiveList l = true → processRepeats l d = (serializeNodes l, [])
  | [], d, _ => processRepeats_nil d
  | n :: ns, d, h => by
    rw [noDirectiveList] at h
    simp only [Bool.and_eq_true] at h
    rw [processRepeats_cons, prn_noDirective n d h.1,
      processRepeats_noDirective ns d h.2, serializeNodes]
    simp

end

theorem joinPairs_map_const (l : List JsValue) (c : List Char) :
    joinPairs (l.map (fun _ => (c, ([] : List (List Char))))) =
      ((l.map (fun _ => c)).flatten, []) := by
  induction l with
  | nil => simp [joinPairs]
  | cons x xs ih =>
    simp only [List.map_cons, joinPairs, ih, List.flatten_cons]
    simp

theorem dotFree_cons {c : Char} {l : List Char} :
    dotFree (c :: l) = true ↔ (c ≠ '.' ∧ dotFree l = true) := by
  simp [dotFree]

theorem splitOnDot_dotFree : ∀ {a : List Char}, dotFree a = true → splitOnDot a = [a]
  | [], _ => rfl
  | c :: a2, h => by
    rcases dotFree_cons.mp h with ⟨hc, h2⟩
    rw [splitOnDot, if_neg hc, splitOnDot_dotFree h2]

theorem splitOnDot_append_dot : ∀ {a : List Char} (b : List Char), dotFree a = true →
    splitOnDot (a ++ '.' :: b) = a :: splitOnDot b
  | [], b, _ => by simp [splitOnDot]
  | c :: a2, b, h => by
    rcases dotFree_cons.mp h with ⟨hc, h2⟩
    rw [List.cons_append, splitOnDot, if_neg hc, splitOnDot_append_dot b h2]

theorem canonIndex?_all_digits : ∀ {seg : List Char} {i : Nat},
    canonIndex? seg = some i → seg.all Char.isDigit = true := by
  intro seg i h
  cases seg with
  | nil => simp [canonIndex?] at h
  | cons c cs =>
    rw [canonIndex?] at h
    split at h
    · rename_i hcond
      simp only [Bool.and_eq_true] at hcond
      exact hcond.1
    · exact absurd h (by simp)

theorem dotFree_of_all_digits {l : List Char} (h : l.all Char.isDigit = true) :
    dotFree l = true := by
  simp only [dotFree, List.all_eq_true] at *
  intro c hc
  have hd := h c hc
  cases hcq : c == '.' with
  | false => simp [hcq]
  | true =>
    exfalso
    have hce : c = '.' := by simpa using hcq
    subst hce
    exact absurd hd (by decide)

/-- Claim C3: for every markup whose first placeholder token has a key path
that resolves to Absent, substitution raises no exception (the model is a
total function) and replaces the entire token with the empty string, leaving
the leading context and the processing of the rest unchanged. -/
theorem c3_absent_placeholder_empty (a p b : List Char) (d : JsValue)
    (ha : braceFreeL a = true) (hp : p ≠ []) (hbf : braceFreeL p = true)
    (habs : getNestedValue d (trimChars p) = none) :
    processSimplePlaceholders (a ++ (mkTok p ++ b)) d =
      a ++ processSimplePlaceholders b d :=
  psp_first_absent b d ha hp hbf habs

/-- Witness for C3: substituting "x{{missing}}!" against an empty object
replaces the unresolvable token with the empty string. -/
theorem c3_absent_placeholder_empty_witness :
    processSimplePlaceholders (lc "x" ++ (mkTok (lc "missing") ++ lc "!"))
      (JsValue.vObj []) = lc "x" ++ processSimplePlaceholders (lc "!") (JsValue.vObj []) :=
  c3_absent_placeholder_empty (lc "x") (lc "missing") (lc "!") (JsValue.vObj [])
    (by decide) (by decide) (by decide) (by rfl)

/-- Claim C4: a repeat directive whose key path resolves to a value that is
not an array is removed together with its entire subtree, a diagnostic
carrying the offending path is emitted, and the sibling markup on both sides
renders exactly as it would without the directive node; the expansion is a
total function, so no exception is raised. -/
theorem c4_nonarray_directive_removed (pre post : List MNode) (tag : List Char)
    (attrs : List (List Char × List Char)) (cs : List MNode) (d : JsValue)
    (path : List Char)
    (h1 : lookupBy attrs tsRepeatN = some path)
    (h2 : isArrayOpt (getNestedValue d path) = false) :
    processRepeats (pre ++ MNode.elem tag attrs cs :: post) d =
      ((processRepeats pre d).1 ++ (processRepeats post d).1,
       (processRepeats pre d).2 ++ path :: (processRepeats post d).2) := by
  rw [processRepeats_append pre (MNode.elem tag attrs cs :: post) d,
    processRepeats_cons, prn_elem_dir_bad tag attrs cs d path h1 h2]
  simp

/-- Witness for C4: a directive on a scalar-valued path disappears, warns,
and leaves the sibling text nodes intact. -/
theorem c4_nonarray_directive_removed_witness :
    processRepeats ([MNode.text (lc "A")] ++
        MNode.elem (lc "div") [(lc "ts-repeat", lc "count")] [MNode.text (lc "x")] ::
        [MNode.text (lc "B")]) (JsValue.vObj [(lc "count", JsValue.vNum 5)]) =
      ((processRepeats [MNode.text (lc "A")] (JsValue.vObj [(lc "count", JsValue.vNum 5)])).1 ++
        (processRepeats [MNode.text (lc "B")] (JsValue.vObj [(lc "count", JsValue.vNum 5)])).1,
       (processRepeats [MNode.text (lc "A")] (JsValue.vObj [(lc "count", JsValue.vNum 5)])).2 ++
        lc "count" :: (processRepeats [MNode.text (lc "B")] (JsValue.vObj [(lc "count", JsValue.vNum 5)])).2) :=
  c4_nonarray_directive_removed [MNode.text (lc "A")] [MNode.text (lc "B")]
    (lc "div") [(lc "ts-repeat", lc "count")] [MNode.text (lc "x")]
    (JsValue.vObj [(lc "count", JsValue.vNum 5)]) (lc "count") (by rfl) (by rfl)

/-- Claim C5: a repeat directive whose key path resolves to an empty array
expands to the empty string — the directive node disappears, contributing no
copies and no diagnostic — while the sibling markup on both sides renders
exactly as it would without the directive node. -/
theorem c5_empty_array_directive (pre post : List MNode) (tag : List Char)
    (attrs : List (List Char × List Char)) (cs : List MNode) (d : JsValue)
    (path : List Char)
    (h1 : lookupBy attrs tsRepeatN = some path)
    (h2 : getNestedValue d path = some (.vArr [])) :
    processRepeats (pre ++ MNode.elem tag attrs cs :: post) d =
      ((processRepeats pre d).1 ++ (processRepeats post d).1,
       (processRepeats pre d).2 ++ (processRepeats post d).2) := by
  rw [processRepeats_append pre (MNode.elem tag attrs cs :: post) d,
    processRepeats_cons, prn_elem_dir_arr tag attrs cs d path [] h1 h2]
  simp [joinPairs]

/-- Witness for C5: a directive over an empty array vanishes between its
sibling text nodes with no warning. -/
theorem c5_empty_array_directive_witness :
    processRepeats ([MNode.text (lc "A")] ++
        MNode.elem (lc "div") [(lc "ts-repeat", lc "rows")] [MNode.text (lc "x")] ::
        [MNode.text (lc "B")]) (JsValue.vObj [(lc "rows", JsValue.vArr [])]) =
      ((processRepeats [MNode.text (lc "A")] (JsValue.vObj [(lc "rows", JsValue.vArr [])])).1 ++
        (processRepeats [MNode.text (lc "B")] (JsValue.vObj [(lc "rows", JsValue.vArr [])])).1,
       (processRepeats [MNode.text (lc "A")] (JsValue.vObj [(lc "rows", JsValue.vArr [])])).2 ++
        (processRepeats [MNode.text (lc "B")] (JsValue.vObj [(lc "rows", JsValue.vArr [])])).2) :=
  c5_empty_array_directive [MNode.text (lc "A")] [MNode.text (lc "B")]
    (lc "div") [(lc "ts-repeat", lc "rows")] [MNode.text (lc "x")]
    (JsValue.vObj [(lc "rows", JsValue.vArr [])]) (lc "rows") (by rfl) (by rfl)

/-- Claim C7: every per-item copy is produced from the directive subtree
with all repeat-directive attributes stripped (so no node of a copy is
re-identified as a directive), and the expansion of a directive-free tree is
plain serialization — it triggers no further expansion and no diagnostic, so
a single expansion pass leaves no directive behind. -/
theorem c7_copies_carry_no_directive :
    (∀ n : MNode, noDirective (stripAll n) = true) ∧
    (∀ (n : MNode) (d : JsValue), noDirective n = true →
      processRepeatNode n d = (serializeNode n, [])) :=
  ⟨noDirective_stripAll, prn_noDirective⟩

/-- Witness for C7: the stripped copy of a nested-directive element carries
no directive, and expanding it is plain serialization. -/
theorem c7_copies_carry_no_directive_witness :
    noDirective (stripAll (MNode.elem (lc "div") [(lc "ts-repeat", lc "rows")]
      [MNode.elem (lc "span") [(lc "ts-repeat", lc "items")] [MNode.text (lc "x")]])) = true ∧
    processRepeatNode (MNode.elem (lc "p") [] [MNode.text (lc "hi")]) (JsValue.vObj []) =
      (serializeNode (MNode.elem (lc "p") [] [MNode.text (lc "hi")]), []) :=
  ⟨c7_copies_carry_no_directive.1 (MNode.elem (lc "div") [(lc "ts-repeat", lc "rows")]
      [MNode.elem (lc "span") [(lc "ts-repeat", lc "items")] [MNode.text (lc "x")]]),
   c7_copies_carry_no_directive.2 (MNode.elem (lc "p") [] [MNode.text (lc "hi")])
      (JsValue.vObj []) (by rfl)⟩

/-- Claim C8: a template containing no repeat directive and no placeholder
token round-trips: the engine's output string is byte-for-byte the
serialization of its input, with no diagnostics. -/
theorem c8_round_trip (nodes : List MNode) (d : JsValue)
    (h1 : noDirectiveList nodes = true)
    (h2 : scanTokens (serializeNodes nodes) = []) :
    processTemplate nodes d = (serializeNodes nodes, []) := by
  unfold processTemplate
  rw [processRepeats_noDirective nodes d h1]
  simp [psp_of_no_tokens d h2]

/-- Witness for C8: a directive-free, placeholder-free paragraph renders
unchanged. -/
theorem c8_round_trip_witness :
    processTemplate [MNode.elem (lc "p") [(lc "class", lc "x")] [MNode.text (lc "hi")]]
      (JsValue.vObj [(lc "hi", JsValue.vStr (lc "other"))]) =
      (serializeNodes [MNode.elem (lc "p") [(lc "class", lc "x")] [MNode.text (lc "hi")]], []) :=
  c8_round_trip [MNode.elem (lc "p") [(lc "class", lc "x")] [MNode.text (lc "hi")]]
    (JsValue.vObj [(lc "hi", JsValue.vStr (lc "other"))]) (by rfl) (by decide)

/-- Claim C9: path resolution treats arrays as object-shaped mappings: a
segment that is an index key present in the array descends into the element
at that index instead of short-circuiting to Absent, so a path such as
"items.0" resolves to the first element of the items array. -/
theorem c9_array_index_resolution (xs : List JsValue) (seg : List Char) (i : Nat)
    (hseg : canonIndex? seg = some i) :
    getProp (JsValue.vArr xs) seg = xs.get? i ∧
    (∀ (nm : List Char) (v : JsValue), dotFree nm = true → xs.get? i = some v →
      getNestedValue (JsValue.vObj [(nm, JsValue.vArr xs)]) (nm ++ '.' :: seg) = some v) := by
  constructor
  · simp [getProp, hseg]
  · intro nm v hnm hget
    have hdf : dotFree seg = true := dotFree_of_all_digits (canonIndex?_all_digits hseg)
    unfold getNestedValue
    rw [splitOnDot_append_dot seg hnm, splitOnDot_dotFree hdf]
    have hob : getProp (JsValue.vObj [(nm, JsValue.vArr xs)]) nm = some (JsValue.vArr xs) := by
      simp [getProp, lookupBy]
    have hget2 : xs[i]? = some v := by simpa using hget
    have har : getProp (JsValue.vArr xs) seg = some v := by
      simp [getProp, hseg, hget2]
    simp [walkPath, hob, har, hget]

/-- Witness for C9: "items.0" resolves to the first element of the items
array. -/
theorem c9_array_index_resolution_witness :
    getProp (JsValue.vArr [JsValue.vNum 7]) ['0'] = [JsValue.vNum 7].get? 0 ∧
    getNestedValue (JsValue.vObj [(lc "items", JsValue.vArr [JsValue.vNum 7])])
      (lc "items" ++ '.' :: ['0']) = some (JsValue.vNum 7) :=
  ⟨(c9_array_index_resolution [JsValue.vNum 7] ['0'] 0 (by decide)).1,
   (c9_array_index_resolution [JsValue.vNum 7] ['0'] 0 (by decide)).2
     (lc "items") (JsValue.vNum 7) (by decide) (by rfl)⟩

/-- Claim C10: the placeholder scanner recognizes only tokens whose interior
is a non-empty run of non-brace characters; a markup in which it finds no
token — in particular one consisting of the token with empty interior or of
doubled-brace text with braces inside — passes through substitution
verbatim. -/
theorem c10_scanner_shape (m : List Char) (d : JsValue) :
    (∀ p, p ∈ scanTokens m → p ≠ [] ∧ braceFreeL p = true) ∧
    (scanTokens m = [] → processSimplePlaceholders m d = m) :=
  ⟨fun _ hp => scanTokens_mem hp, fun hs => psp_of_no_tokens d hs⟩

/-- Witness for C10: the interior found in a well-formed token is non-empty
and brace-free, and the token with empty interior is not recognized, so the
string passes through substitution unchanged. -/
theorem c10_scanner_shape_witness :
    ((lc "a") ≠ [] ∧ braceFreeL (lc "a") = true) ∧
    processSimplePlaceholders ['\x7b', '\x7b', '\x7d', '\x7d'] (JsValue.vObj []) =
      ['\x7b', '\x7b', '\x7d', '\x7d'] :=
  ⟨(c10_scanner_shape (mkTok (lc "a")) (JsValue.vObj [])).1 (lc "a") (by decide),
   (c10_scanner_shape ['\x7b', '\x7b', '\x7d', '\x7d'] (JsValue.vObj [])).2 (by decide)⟩

/-- Counterexample to claim C6 as stated: with the scope
a = "x", x = "BAD" — whose stringified scalar values contain no brace
characters — one pass over the markup "{{{{a}}}}" yields "{{x}}" (the
leftover literal braces recombine with the inserted text into a new token),
so a second pass yields "BAD": running the substitutor twice does not return
the same string as running it once. -/
theorem c6_idempotence_counterexample :
    braceFreeScalars (JsValue.vObj [(lc "a", JsValue.vStr (lc "x")),
        (lc "x", JsValue.vStr (lc "BAD"))]) = true ∧
    processSimplePlaceholders
        (processSimplePlaceholders
          ['\x7b', '\x7b', '\x7b', '\x7b', 'a', '\x7d', '\x7d', '\x7d', '\x7d']
          (JsValue.vObj [(lc "a", JsValue.vStr (lc "x")),
            (lc "x", JsValue.vStr (lc "BAD"))]))
        (JsValue.vObj [(lc "a", JsValue.vStr (lc "x")),
          (lc "x", JsValue.vStr (lc "BAD"))]) ≠
      processSimplePlaceholders
        ['\x7b', '\x7b', '\x7b', '\x7b', 'a', '\x7d', '\x7d', '\x7d', '\x7d']
        (JsValue.vObj [(lc "a", JsValue.vStr (lc "x")),
          (lc "x", JsValue.vStr (lc "BAD"))]) := by
  constructor
  · decide
  · decide

/-- Claim C6 (amended): placeholder substitution is a single fold over the
token list computed once from the original markup — inserted text never adds
tokens to that pass — and running the substitutor a second time on its own
output returns the same string whenever that output contains no recognized
placeholder token (brace-free scalar values alone do not guarantee this,
because leftover braces in the markup can recombine with inserted text into
new tokens). -/
theorem c6_idempotent_when_output_tokenfree (h : List Char) (d : JsValue)
    (hout : scanTokens (processSimplePlaceholders h d) = []) :
    processSimplePlaceholders (processSimplePlaceholders h d) d =
      processSimplePlaceholders h d :=
  psp_of_no_tokens d hout

/-- Witness for the amended C6: substituting "{{a}}!" against a = "1" gives
"1!", which contains no token, so a second pass leaves it unchanged. -/
theorem c6_idempotent_when_output_tokenfree_witness :
    processSimplePlaceholders
        (processSimplePlaceholders (mkTok (lc "a") ++ lc "!")
          (JsValue.vObj [(lc "a", JsValue.vStr (lc "1"))]))
        (JsValue.vObj [(lc "a", JsValue.vStr (lc "1"))]) =
      processSimplePlaceholders (mkTok (lc "a") ++ lc "!")
        (JsValue.vObj [(lc "a", JsValue.vStr (lc "1"))]) :=
  c6_idempotent_when_output_tokenfree (mkTok (lc "a") ++ lc "!")
    (JsValue.vObj [(lc "a", JsValue.vStr (lc "1"))]) (by decide)

theorem braceFreeL_flatten : ∀ {L : List (List Char)},
    (∀ x ∈ L, braceFreeL x = true) → braceFreeL L.flatten = true
  | [], _ => rfl
  | x :: xs, h => by
    simp only [List.flatten_cons]
    exact braceFreeL_append.mpr
      ⟨h x (by simp), braceFreeL_flatten (fun y hy => h y (by simp [hy]))⟩

/-- Claim C1: scope isolation.  For a repeat directive on "rows" whose
interior is a single placeholder {{k}}, and any root data and item list such
that k does not resolve inside any item scope, every expanded copy renders
with an empty interior — even when k (for example "title") resolves at the
root: item scopes replace, and do not merge with, the root scope, and the
placeholder is never resolved against the root data. -/
theorem c1_scope_isolation (root : JsValue) (items : List JsValue) (k : List Char)
    (hk1 : k ≠ []) (hk2 : braceFreeL k = true) (hk3 : trimChars k = k)
    (hrows : getNestedValue root (lc "rows") = some (.vArr items))
    (habs : items.all (fun it => (getNestedValue it k).isNone) = true) :
    processTemplate [MNode.elem (lc "div") [(lc "ts-repeat", lc "rows")]
        [MNode.text (mkTok k)]] root =
      ((List.replicate items.length (lc "<div></div>")).flatten, []) := by
  have hstrip : stripAll (MNode.elem (lc "div") [(lc "ts-repeat", lc "rows")]
      [MNode.text (mkTok k)]) = MNode.elem (lc "div") [] [MNode.text (mkTok k)] := by
    simp [stripAll, stripAllList, removeRepeatAttr, tsRepeatN]
  have hser : serializeNode (MNode.elem (lc "div") [] [MNode.text (mkTok k)]) =
      lc "<div>" ++ (mkTok k ++ lc "</div>") := by
    simp [serializeNode, serializeNodes, serializeAttrs, lc]
  have hitem : ∀ it ∈ items,
      ((processSimplePlaceholders
          (processRepeatNode (stripAll (MNode.elem (lc "div")
            [(lc "ts-repeat", lc "rows")] [MNode.text (mkTok k)])) it).1 it),
       (processRepeatNode (stripAll (MNode.elem (lc "div")
          [(lc "ts-repeat", lc "rows")] [MNode.text (mkTok k)])) it).2) =
      ((lc "<div></div>" : List Char), ([] : List (List Char))) := by
    intro it hmem
    rw [hstrip, prn_noDirective (MNode.elem (lc "div") [] [MNode.text (mkTok k)]) it rfl,
      hser]
    have habs2 : getNestedValue it (trimChars k) = none := by
      rw [hk3]
      rw [List.all_eq_true] at habs
      exact Option.isNone_iff_eq_none.mp (by simpa using habs it hmem)
    rw [psp_first_absent (lc "</div>") it (by decide) hk1 hk2 habs2]
    rw [psp_of_no_tokens it (by decide)]
    rfl
  unfold processTemplate
  rw [processRepeats_cons, processRepeats_nil,
    prn_elem_dir_arr (lc "div") [(lc "ts-repeat", lc "rows")] [MNode.text (mkTok k)]
      root (lc "rows") items (by rfl) hrows]
  rw [List.map_congr_left hitem, joinPairs_map_const]
  have hbf : braceFreeL ((List.replicate items.length (lc "<div></div>")).flatten) = true :=
    braceFreeL_flatten (fun x hx => by rw [List.eq_of_mem_replicate hx]; decide)
  simp [psp_of_no_tokens root (scanTokens_of_bf hbf)]

/-- Witness for C1: the spec's concrete instance — root
data with title = "Page" and rows = [one object without a title field]; the
directive's interior {{title}} renders empty, not "Page". -/
theorem c1_scope_isolation_witness :
    processTemplate [MNode.elem (lc "div") [(lc "ts-repeat", lc "rows")]
        [MNode.text (mkTok (lc "title"))]]
      (JsValue.vObj [(lc "title", JsValue.vStr (lc "Page")),
        (lc "rows", JsValue.vArr [JsValue.vObj [(lc "x", JsValue.vNum 1)]])]) =
      (lc "<div></div>", []) := by
  have h := c1_scope_isolation
    (JsValue.vObj [(lc "title", JsValue.vStr (lc "Page")),
      (lc "rows", JsValue.vArr [JsValue.vObj [(lc "x", JsValue.vNum 1)]])])
    [JsValue.vObj [(lc "x", JsValue.vNum 1)]] (lc "title")
    (by decide) (by decide) (by decide) (by rfl) (by decide)
  simpa using h

/-- Claim C2, evaluated at its failing input.  The engine is run on the
claim's own scenario: an outer directive on "groups" containing a name
placeholder and an inner directive on "items", with group A holding two
items and group B one.  The output contains exactly one copy of the inner
subtree per group — not two copies for A and one for B — because the
itemTemplate regex of part_002 line 72 strips the nested ts-repeat
attributes along with the outer one, so the recursive call at line 79 finds
no nested directive to expand.  This contradicts the file's own header
comment ("properly handles nested ts-repeat"), the comment at line 78, the
spec, and the sibling rewrite in src/test.js, which removes only the copy's
own attribute. -/
theorem c2_nested_repeat_not_expanded :
    (processTemplate [MNode.elem (lc "div") [(lc "ts-repeat", lc "groups")] [MNode.text (mkTok (lc "name")), MNode.elem (lc "span") [(lc "ts-repeat", lc "items")] [MNode.text (lc "ITEM")]]] (JsValue.vObj [(lc "groups", JsValue.vArr [JsValue.vObj [(lc "name", JsValue.vStr (lc "A")), (lc "items", JsValue.vArr [JsValue.vNum 1, JsValue.vNum 2])], JsValue.vObj [(lc "name", JsValue.vStr (lc "B")), (lc "items", JsValue.vArr [JsValue.vNum 3])]])])).1 = lc "<div>A<span>ITEM</span></div><div>B<span>ITEM</span></div>" := by
  have hpr : processRepeats [MNode.elem (lc "div") [(lc "ts-repeat", lc "groups")] [MNode.text (mkTok (lc "name")), MNode.elem (lc "span") [(lc "ts-repeat", lc "items")] [MNode.text (lc "ITEM")]]] (JsValue.vObj [(lc "groups", JsValue.vArr [JsValue.vObj [(lc "name", JsValue.vStr (lc "A")), (lc "items", JsValue.vArr [JsValue.vNum 1, JsValue.vNum 2])], JsValue.vObj [(lc "name", JsValue.vStr (lc "B")), (lc "items", JsValue.vArr [JsValue.vNum 3])]])]) = (lc "<div>A<span>ITEM</span></div><div>B<span>ITEM</span></div>", []) := by
    rw [processRepeats_cons, processRepeats_nil]
    rw [prn_elem_dir_arr (lc "div") [(lc "ts-repeat", lc "groups")] [MNode.text (mkTok (lc "name")), MNode.elem (lc "span") [(lc "ts-repeat", lc "items")] [MNode.text (lc "ITEM")]] (JsValue.vObj [(lc "groups", JsValue.vArr [JsValue.vObj [(lc "name", JsValue.vStr (lc "A")), (lc "items", JsValue.vArr [JsValue.vNum 1, JsValue.vNum 2])], JsValue.vObj [(lc "name", JsValue.vStr (lc "B")), (lc "items", JsValue.vArr [JsValue.vNum 3])]])]) (lc "groups") [JsValue.vObj [(lc "name", JsValue.vStr (lc "A")), (lc "items", JsValue.vArr [JsValue.vNum 1, JsValue.vNum 2])], JsValue.vObj [(lc "name", JsValue.vStr (lc "B")), (lc "items", JsValue.vArr [JsValue.vNum 3])]] (by rfl) (by rfl)]
    simp only [List.map_cons, List.map_nil]
    have hstrip : stripAll (MNode.elem (lc "div") [(lc "ts-repeat", lc "groups")] [MNode.text (mkTok (lc "name")), MNode.elem (lc "span") [(lc "ts-repeat", lc "items")] [MNode.text (lc "ITEM")]]) = MNode.elem (lc "div") [] [MNode.text (mkTok (lc "name")), MNode.elem (lc "span") [] [MNode.text (lc "ITEM")]] := rfl
    rw [hstrip]
    rw [prn_noDirective (MNode.elem (lc "div") [] [MNode.text (mkTok (lc "name")), MNode.elem (lc "span") [] [MNode.text (lc "ITEM")]]) (JsValue.vObj [(lc "name", JsValue.vStr (lc "A")), (lc "items", JsValue.vArr [JsValue.vNum 1, JsValue.vNum 2])]) (by decide)]
    rw [prn_noDirective (MNode.elem (lc "div") [] [MNode.text (mkTok (lc "name")), MNode.elem (lc "span") [] [MNode.text (lc "ITEM")]]) (JsValue.vObj [(lc "name", JsValue.vStr (lc "B")), (lc "items", JsValue.vArr [JsValue.vNum 3])]) (by decide)]
    decide
  unfold processTemplate
  rw [hpr]
  decide
